import Mathlib

/-!
Verification of the cohere-terrarium core against its specification.

The source under verification is the TypeScript service in
`src/services/python-interpreter/service.ts` (class PyodidePythonEnvironment),
`src/utils/async-utils.ts` (doWithLock) and `src/index.ts` (runRequest).
Each TypeScript function relevant to the claims is shallowly embedded as an
executable Lean definition; the surrounding Pyodide engine is a parameter
(a filesystem transformer plus the outcome of `runPythonAsync`), and the
Emscripten filesystem is modelled as a finite tree of directories and files.
-/

namespace Terrarium

/-! ## Base64 (bytesToBase64 / base64ToBytes)

The source encodes with `btoa(String.fromCodePoint(...bytes))` and decodes
with `Uint8Array.from(atob(base64), m => m.codePointAt(0))`.  For byte values
below 256, `String.fromCodePoint` / `codePointAt` are the identity bridge
between bytes and Latin-1 code units, so the composition is exactly standard
base64 over the byte list.  `btoa` / `atob` are modelled below at that level:
bytes are `Nat`s (< 256 where it matters), and `atob`'s
InvalidCharacterError is modelled by returning `none`. -/

def b64Alphabet : List Char :=
  "ABCDEFGHIJKLMNOPQRSTUVWXYZabcdefghijklmnopqrstuvwxyz0123456789+/".data

/-- Character for a 6-bit value, per the base64 alphabet used by btoa. -/
def b64Char (n : Nat) : Char := b64Alphabet.getD n 'A'

/-- Index of a character in the base64 alphabet; `none` when the character
is not in the alphabet (atob raises InvalidCharacterError there). -/
def b64Index (c : Char) : Option Nat :=
  let i := b64Alphabet.indexOf c
  if i < b64Alphabet.length then some i else none

/-- Base64 encoding of a byte list, processing three bytes into four
characters, with `=` padding exactly as `btoa` produces it. -/
def b64EncodeList : List Nat → List Char
  | a :: b :: c :: rest =>
      b64Char (a / 4) :: b64Char ((a % 4) * 16 + b / 16) ::
      b64Char ((b % 16) * 4 + c / 64) :: b64Char (c % 64) :: b64EncodeList rest
  | [a, b] =>
      [b64Char (a / 4), b64Char ((a % 4) * 16 + b / 16), b64Char ((b % 16) * 4), '=']
  | [a] =>
      [b64Char (a / 4), b64Char ((a % 4) * 16), '=', '=']
  | [] => []

/-- Base64 decoding of a character list, four characters at a time, honouring
`=` padding; `none` models `atob` throwing on malformed input. -/
def b64DecodeList : List Char → Option (List Nat)
  | [] => some []
  | c1 :: c2 :: c3 :: c4 :: rest =>
      if c3 = '=' ∧ c4 = '=' ∧ rest = [] then
        match b64Index c1, b64Index c2 with
        | some s1, some s2 => some [s1 * 4 + s2 / 16]
        | _, _ => none
      else if c4 = '=' ∧ rest = [] then
        match b64Index c1, b64Index c2, b64Index c3 with
        | some s1, some s2, some s3 =>
            some [s1 * 4 + s2 / 16, (s2 % 16) * 16 + s3 / 4]
        | _, _, _ => none
      else
        match b64Index c1, b64Index c2, b64Index c3, b64Index c4,
              b64DecodeList rest with
        | some s1, some s2, some s3, some s4, some tail =>
            some ([s1 * 4 + s2 / 16, (s2 % 16) * 16 + s3 / 4,
                   (s3 % 4) * 64 + s4] ++ tail)
        | _, _, _, _, _ => none
  | _ => none

/-- Model of `bytesToBase64` (service.ts lines 193-196). -/
def bytesToBase64 (bytes : List Nat) : String := String.mk (b64EncodeList bytes)

/-- Model of `base64ToBytes` (service.ts lines 203-206). -/
def base64ToBytes (base64 : String) : Option (List Nat) :=
  b64DecodeList base64.data

/-! ## Error-context enrichment (service.ts lines 265-280, the catch block)

The catch block matches the message against the regular expression
`/File "<exec>", line (\d+)/`, and on a match appends a "Code context:"
block built from a slice of the source lines.  `String.match` finds the
first position where the whole pattern (marker text followed by at least
one digit) matches; `\d+` is greedy, so the captured group is the maximal
digit run; `parseInt` turns it into the line number. -/

def execLineMarker : List Char := ("File \"<exec>\", line ").data

/-- Maximal leading digit run of a character list (the greedy `\d+`). -/
def takeDigits : List Char → List Char
  | [] => []
  | c :: rest => if c.isDigit then c :: takeDigits rest else []

/-- Value of a digit run, as `parseInt` computes it. -/
def digitsToNat (ds : List Char) : Nat :=
  ds.foldl (fun acc c => acc * 10 + (c.toNat - 48)) 0

/-- Model of `errorMsg.match(/File "<exec>", line (\d+)/)` followed by
`parseInt` on the captured group: the first occurrence of the marker that
is followed by at least one digit yields the value of the maximal digit
run after it. -/
def findExecLine : List Char → Option Nat
  | [] => none
  | c :: rest =>
      if execLineMarker.isPrefixOf (c :: rest) then
        match takeDigits ((c :: rest).drop execLineMarker.length) with
        | [] => findExecLine rest
        | d :: ds => some (digitsToNat (d :: ds))
      else findExecLine rest

/-- Model of the context block built at service.ts lines 272-278:
`codeLines.slice(startLine - 1, endLine)` mapped to numbered lines and
joined with newlines. -/
def contextBlock (code : String) (lineNum : Nat) : String :=
  let codeLines := code.splitOn "\n"
  let startLine := max 1 (lineNum - 4)
  let endLine := min codeLines.length (lineNum + 4)
  String.intercalate "\n"
    (((codeLines.drop (startLine - 1)).take (endLine - (startLine - 1))).mapIdx
      (fun idx line => toString (startLine + idx) ++ ": " ++ line))

/-- Model of the message enrichment in the catch block of `runCode`
(service.ts lines 267-280). -/
def enrichErrorMsg (code errorMsg : String) : String :=
  match findExecLine errorMsg.data with
  | none => errorMsg
  | some lineNum => errorMsg ++ "\n\nCode context:\n" ++ contextBlock code lineNum

/-- Modelled from the spec's words (for comparison with `contextBlock`):
the inclusive window `[max(1, N-4), min(lastLine, N+4)]` of source lines,
each prefixed with its 1-based line number. -/
def specContextLines (code : String) (n : Nat) : List String :=
  let lines := code.splitOn "\n"
  let lo := max 1 (n - 4)
  let hi := min lines.length (n + 4)
  (List.range' lo (hi + 1 - lo)).map
    (fun k => toString k ++ ": " ++ lines.getD (k - 1) "")

/-! ## The Emscripten filesystem

Pyodide's in-memory guest filesystem is modelled as a finite tree.  Paths
are lists of segments; the absolute path string "/home/earth/sub/f.txt"
corresponds to the segment list ["home", "earth", "sub", "f.txt"].
`FS.readdir` of a directory returns its entry names (plus the markers `.`
and `..`, which the source immediately skips, so they are left out of the
model); entry names returned by `readdir` never contain a slash. -/

inductive Node where
  | file (content : List Nat)
  | dir (entries : List (String × Node))

/-- Lookup of an entry name in a directory's entry list. -/
def lookupEntry (entries : List (String × Node)) (name : String) : Option Node :=
  match entries.find? (fun e => e.1 == name) with
  | some e => some e.2
  | none => none

/-- Replace-or-append an entry, keeping the remaining entries untouched. -/
def setEntry : List (String × Node) → String → Node → List (String × Node)
  | [], name, node => [(name, node)]
  | (n, c) :: rest, name, node =>
      if n = name then (n, node) :: rest else (n, c) :: setEntry rest name node

/-- Resolve a (normalized, absolute) segment path to a node. -/
def getNode : List String → Node → Option Node
  | [], node => some node
  | name :: rest, Node.dir entries =>
      match lookupEntry entries name with
      | some child => getNode rest child
      | none => none
  | _ :: _, Node.file _ => none

/-- Model of `FS.writeFile`: create or overwrite the file at the given
segment path; `none` models the ErrnoError thrown when an intermediate
directory is missing, the target is an existing directory, or the path is
degenerate. -/
def writeAt : List String → List Nat → Node → Option Node
  | [name], data, Node.dir entries =>
      match lookupEntry entries name with
      | some (Node.dir _) => none
      | _ => some (Node.dir (setEntry entries name (Node.file data)))
  | name :: next :: rest, data, Node.dir entries =>
      match lookupEntry entries name with
      | some child =>
          match writeAt (next :: rest) data child with
          | some child2 => some (Node.dir (setEntry entries name child2))
          | none => none
      | none => none
  | _, _, _ => none

/-! ## Path joining (Emscripten PATH.join2)

`PATH.join2(l, r)` is `PATH.normalize(l + "/" + r)`: the joined string is
split on slashes, empty and `.` segments are dropped, and `..` pops the
previous segment (discarded at the root, since the home directory is an
absolute path).  This is the only place where a caller-supplied filename is
interpreted, and it is where a path-escaping filename such as
"../evil.txt" resolves to a location outside the home directory. -/

def normSegsAux : List String → List String → List String
  | acc, [] => acc.reverse
  | acc, seg :: rest =>
      if seg = "" ∨ seg = "." then normSegsAux acc rest
      else if seg = ".." then normSegsAux (acc.drop 1) rest
      else normSegsAux (seg :: acc) rest

/-- Model of `PATH.join2(dir, filename)` for an absolute `dir`, returning
the normalized absolute path as a segment list. -/
def joinPath (dir : List String) (filename : String) : List String :=
  normSegsAux [] (dir ++ filename.splitOn "/")

/-- Segment-list form of `pythonEnvironmentHomeDir = "/home/earth"`. -/
def pyHomeSegs : List String := ["home", "earth"]

/-! ## Recursive listing (service.ts lines 151-177, listFilesRecursive)

The source walks `FS.readdir(dir)`, skips `.` and `..`, skips any entry
whose name is in `default_file_names` (before even checking whether it is
a directory, so a matching directory is pruned with its whole subtree),
recurses into directories and collects files.  The model returns each
found file as its segment path relative to the starting directory; the
source's full path string is the starting directory joined with exactly
those segments, so `fullPath.slice(home.length + 1)` in the caller
corresponds to `relPath` below. -/

mutual

def listFilesRecursive (default_file_names : List String) : Node → List (List String)
  | Node.file _ => []
  | Node.dir entries => listDirEntries default_file_names entries

def listDirEntries (default_file_names : List String) :
    List (String × Node) → List (List String)
  | [] => []
  | (name, child) :: rest =>
      (if name ∈ default_file_names then []
       else
         match child with
         | Node.file _ => [[name]]
         | Node.dir _ =>
             (listFilesRecursive default_file_names child).map
               (fun p => name :: p))
      ++ listDirEntries default_file_names rest

end

/-- Relative path string of a segment list, mirroring the string
`fullPath.slice(pythonEnvironmentHomeDir.length + 1)` built by `runCode`
out of `PATH.join2` concatenations. -/
def relPath : List String → String
  | [] => ""
  | [s] => s
  | s :: next :: rest => s ++ "/" ++ relPath (next :: rest)

/-! ## Wire data (types.ts and the request body)

`CodeExecutionResponse` mirrors the interface in types.ts; optional fields
are `Option`s, `undefined` being `none`.  Input file entries arrive as
arbitrary JSON objects, so both of their fields may be missing.  The value
of the final expression is engine-defined; a `Nat` stands in for it, which
is enough for every claim.  An error thrown by the engine or by a JS
builtin carries a `toString()` text and an optional `type` property (set by
Pyodide for Python exceptions, absent on DOM and filesystem errors). -/

structure FileEntry where
  filename : Option String
  b64_data : Option String

structure JsError where
  type : Option String
  message : String
deriving DecidableEq

structure CodeExecutionResponse where
  success : Bool
  final_expression : Option Nat := none
  output_files : Option (List (String × String)) := none
  error : Option JsError := none
  std_out : Option String := none
  std_err : Option String := none
  code_runtime : Option Nat := none
deriving DecidableEq

/-- Model of `JSON.stringify` on an input file entry: fields holding
`undefined` are omitted (string escaping inside the values is elided; the
claims never inspect this text). -/
def jsonStringifyEntry (f : FileEntry) : String :=
  let fields :=
    (match f.filename with
     | some fn => ["\"filename\":\"" ++ fn ++ "\""]
     | none => []) ++
    (match f.b64_data with
     | some d => ["\"b64_data\":\"" ++ d ++ "\""]
     | none => [])
  "\x7b" ++ String.intercalate "," fields ++ "\x7d"

/-- The error recorded for a malformed input file entry
(service.ts line 223). -/
def parsingError (f : FileEntry) : JsError :=
  ⟨some "parsing", "file data is missing for: " ++ jsonStringifyEntry f⟩

/-- The ErrnoError thrown by `FS.writeFile`; it has no `type` property. -/
def fsWriteError : JsError := ⟨none, "ErrnoError: FS error"⟩

/-- The ErrnoError thrown by `FS.readdir` / `FS.readFile`. -/
def fsReadError : JsError := ⟨none, "ErrnoError: FS error"⟩

/-- The DOMException thrown by `atob` on a malformed base64 payload. -/
def atobError : JsError :=
  ⟨none, "InvalidCharacterError: Invalid character"⟩

/-! ## runCode (service.ts lines 209-293)

The `files.forEach` loop at lines 220-228: for an entry missing `filename`
or `b64_data` the callback sets `result.success = false` and
`result.error = { type: "parsing", ... }` and returns — but a `return`
inside a `forEach` callback only ends the callback, so the loop continues
with the remaining entries and `runCode` proceeds to execute the code.
`processFiles` reproduces this exactly: it threads the partially mutated
`result` object and keeps iterating.  Exceptions thrown inside the loop
(by `atob` or `FS.writeFile`) do abort it, landing in the catch block. -/

def processFiles : Node → CodeExecutionResponse → List FileEntry →
    Except (Node × JsError) (Node × CodeExecutionResponse)
  | fs, r, [] => Except.ok (fs, r)
  | fs, r, f :: rest =>
      match f.filename, f.b64_data with
      | some fn, some b64 =>
          match base64ToBytes b64 with
          | none => Except.error (fs, atobError)
          | some bytes =>
              match writeAt (joinPath pyHomeSegs fn) bytes fs with
              | some fs2 => processFiles fs2 r rest
              | none => Except.error (fs, fsWriteError)
      | _, _ =>
          processFiles fs
            { r with success := false, error := some (parsingError f) } rest

/-- Reading of the collected new files as base64 (service.ts lines 244-246):
each path is read from the home directory and encoded; a failing read (the
entry vanished or is not a file) throws. -/
def readOutputs (home : Node) : List (List String) →
    Option (List (String × String))
  | [] => some []
  | p :: rest =>
      match getNode p home with
      | some (Node.file content) =>
          match readOutputs home rest with
          | some tail => some ((relPath p, bytesToBase64 content) :: tail)
          | none => none
      | _ => none

/-- Output collection (service.ts lines 236-249): list the home directory
recursively (skipping default file names at every level), drop paths whose
relative name equals one of the request's input filenames (`undefined`
filenames of malformed entries are compared too, and never match a
string), and read the survivors as base64. -/
def collectOutputs (default_file_names : List String) (fs : Node)
    (files : List FileEntry) : Option (List (String × String)) :=
  match getNode pyHomeSegs fs with
  | some home =>
      let allFiles := listFilesRecursive default_file_names home
      let input_file_names : List (Option String) := files.map (fun f => f.filename)
      let new_files :=
        allFiles.filter (fun p => !(input_file_names.contains (some (relPath p))))
      readOutputs home new_files
  | _ => none

/-- Everything the Pyodide engine contributes to one `runCode` call:
the outcome of `loadPackagesFromImports` (`some e` models a throw), the
effect of `runPythonAsync` on the guest filesystem together with its
result or raised error, the stdout/stderr accumulated for this cycle, and
the measured wall-clock time. -/
structure EngineRun where
  loadPkgs : Option JsError
  exec : Node → Node × Except JsError (Option Nat)
  out_string : String
  err_string : String
  runtimeMs : Nat

/-- The try block of `runCode` (service.ts lines 213-264), producing either
the final filesystem and response or the filesystem at throw time and the
thrown error. -/
def runCodeAttempt (default_file_names : List String) (eng : EngineRun)
    (files : List FileEntry) (fs : Node) :
    Except (Node × JsError) (Node × CodeExecutionResponse) :=
  match eng.loadPkgs with
  | some e => Except.error (fs, e)
  | none =>
      match processFiles fs { success := true } files with
      | Except.error fe => Except.error fe
      | Except.ok (fs1, r1) =>
          match eng.exec fs1 with
          | (fs2, Except.error e) => Except.error (fs2, e)
          | (fs2, Except.ok interpreterResult) =>
              match collectOutputs default_file_names fs2 files with
              | none => Except.error (fs2, fsReadError)
              | some new_files =>
                  Except.ok (fs2,
                    { r1 with
                      output_files := some new_files,
                      final_expression := interpreterResult,
                      success := true })

/-- Model of `runCode` (service.ts lines 209-293).  The catch block
enriches the thrown error's message with code context and records
`{ type: error.type, message }` with `success = false`; both paths then
fill `std_out`, `std_err` and `code_runtime`. -/
def runCode (default_file_names : List String) (eng : EngineRun) (code : String)
    (files : List FileEntry) (fs : Node) : Node × CodeExecutionResponse :=
  match runCodeAttempt default_file_names eng files fs with
  | Except.ok (fs2, r) =>
      (fs2, { r with
              std_out := some eng.out_string,
              std_err := some eng.err_string,
              code_runtime := some eng.runtimeMs })
  | Except.error (fs2, e) =>
      (fs2, { success := false,
              error := some ⟨e.type, enrichErrorMsg code e.message⟩,
              std_out := some eng.out_string,
              std_err := some eng.err_string,
              code_runtime := some eng.runtimeMs })

/-! ## runRequest (index.ts lines 19-60) and waitForReady (service.ts 107-123)

`waitForReady` polls `this.pyodide` at 100ms intervals up to 100 times and
then rejects with the string "pyodide is still not loaded after waiting"
when the engine is still not loaded; the boolean `loaded` models whether
`pyodide` is non-null by the end of the poll window.  `runRequest` awaits
`waitForReady` WITHOUT a try/catch, so that rejection propagates out of
`runRequest` (and out of the express handler, which also does not catch):
the model returns it in the `Except.error` branch.  The same holds for the
file-logging line (index.ts line 37): when `req.body.files` is present, it
evaluates `f.b64_data.slice(0, 10)` on every entry, which throws a
TypeError as soon as an entry has no `b64_data` — also uncaught (note
`f.filename` being undefined does not throw there, string concatenation
accepts it).  A successfully handled request replies with exactly one
structured JSON body, modelled by `SentResponse`. -/

def waitForReady (loaded : Bool) : Except String Unit :=
  if loaded then Except.ok () else
    Except.error "pyodide is still not loaded after waiting"

inductive SentResponse where
  | parseErrorNoCode : SentResponse
  | result : CodeExecutionResponse → SentResponse
deriving DecidableEq

/-- The `success` field of the JSON body actually sent to the caller: the
no-code reply is the literal `{"success": false, "error": ...}` of
index.ts line 30. -/
def sentSuccess : SentResponse → Bool
  | SentResponse.parseErrorNoCode => false
  | SentResponse.result r => r.success

structure RequestBody where
  code : Option String
  files : Option (List FileEntry)

/-- The TypeError thrown by the file-logging line (index.ts line 37) when
a supplied file entry has no `b64_data`: `f.b64_data.slice(0, 10)` reads a
property of `undefined`. -/
def filesLogTypeError : String :=
  "TypeError: Cannot read properties of undefined (reading \x27slice\x27)"

/-- Model of `runRequest` (index.ts lines 19-60): wait for readiness (a
timeout rejection escapes as `Except.error`), reject missing or
whitespace-only code with the structured parsing reply, then — when
`body.files` is present — run the logging line, whose TypeError on an
entry without `b64_data` also escapes as `Except.error` (the `map`
callback throws at the first such entry, so the outcome is equivalent to
checking them all), and finally run the code and send its
`CodeExecutionResponse`. -/
def runRequest (loaded : Bool) (default_file_names : List String)
    (eng : EngineRun) (fs : Node) (body : RequestBody) :
    Except String (SentResponse × Node) :=
  match waitForReady loaded with
  | Except.error e => Except.error e
  | Except.ok () =>
      match body.code with
      | none => Except.ok (SentResponse.parseErrorNoCode, fs)
      | some code =>
          if code.trim = "" then Except.ok (SentResponse.parseErrorNoCode, fs)
          else
            match body.files with
            | none =>
                let (fs2, result) := runCode default_file_names eng code [] fs
                Except.ok (SentResponse.result result, fs2)
            | some files =>
                if files.all (fun f => f.b64_data.isSome) then
                  let (fs2, result) :=
                    runCode default_file_names eng code files fs
                  Except.ok (SentResponse.result result, fs2)
                else Except.error filesLogTypeError

/-! ## doWithLock (async-utils.ts lines 312-369)

`doWithLock` keeps, per lock name, an array of promises (`locksByName`).
A caller's synchronous prologue pushes a fresh promise and remembers the
promise of its predecessor (`locks[locks.length - 2]`, i.e. the last
element before the push — `none` when the array was empty, in which case
the task starts without waiting).  The task body runs after the
predecessor's promise resolves; resolution happens in the `finally` block,
which first splices index 0 off the array and then calls `unlock`,
regardless of whether the task returned or threw.

The model is a transition system for one lock name.  Tasks are numbered in
the order their `acquire` (prologue) ran.  `locks` is the promise array,
holding task numbers; `pred i` is the predecessor promise task `i`
captured; `phase i` tracks task `i` through waiting → running → done,
where `done` coincides with the task's promise being resolved (the
`finally` block is the only resolver).  The `finish` transition takes the
task's outcome (returned vs threw) and ignores it, exactly as the
`finally` block does; `drop 1` is the `splice(0, 1)`. -/

inductive Phase where
  | waiting
  | running
  | done
deriving DecidableEq

structure LockState where
  enqueued : Nat
  phase : Nat → Phase
  pred : Nat → Option Nat
  locks : List Nat

def initLockState : LockState :=
  { enqueued := 0, phase := fun _ => Phase.waiting, pred := fun _ => none,
    locks := [] }

/-- Guard under which a task's body may begin: its prologue ran, it has
not started yet, and it either found the array empty at prologue time or
its predecessor's promise has resolved. -/
def canStart (s : LockState) (i : Nat) : Prop :=
  i < s.enqueued ∧ s.phase i = Phase.waiting ∧
    (s.pred i = none ∨ ∃ j, s.pred i = some j ∧ s.phase j = Phase.done)

inductive LockStep : LockState → LockState → Prop
  | enqueue (s : LockState) :
      LockStep s
        { enqueued := s.enqueued + 1,
          phase := s.phase,
          pred := fun k => if k = s.enqueued then s.locks.getLast? else s.pred k,
          locks := s.locks ++ [s.enqueued] }
  | start (s : LockState) (i : Nat) (h : canStart s i) :
      LockStep s
        { s with phase := fun k => if k = i then Phase.running else s.phase k }
  | finish (s : LockState) (i : Nat) (outcome : Bool)
      (h : s.phase i = Phase.running) :
      LockStep s
        { s with
          phase := fun k => if k = i then Phase.done else s.phase k,
          locks := s.locks.drop 1 }

inductive LockReachable : LockState → Prop
  | init : LockReachable initLockState
  | step (s s' : LockState) : LockReachable s → LockStep s s' → LockReachable s'

/-- Inductive invariant of the lock system: some first `f` tasks are done;
the promise array holds exactly the live tasks `f, f+1, ..., enqueued - 1`
in order; only task `f` can be running; every task's recorded predecessor
is its numeric predecessor, unless it found the array empty, in which case
all earlier tasks were (and remain) done. -/
def LockInv (s : LockState) : Prop :=
  ∃ f, f ≤ s.enqueued ∧
    s.locks = List.range' f (s.enqueued - f) ∧
    (∀ k, k < f → s.phase k = Phase.done) ∧
    (∀ k, f ≤ k → s.phase k ≠ Phase.done) ∧
    (∀ k, s.phase k = Phase.running → k = f) ∧
    (∀ k, s.enqueued ≤ k → s.phase k = Phase.waiting ∧ s.pred k = none) ∧
    (∀ k, k < s.enqueued →
      (s.pred k = some (k - 1) ∧ 1 ≤ k) ∨
      (s.pred k = none ∧ ∀ j, j < k → s.phase j = Phase.done))

/-! ## Theorems -/

theorem b64Index_b64Char : ∀ k, k < 64 → b64Index (b64Char k) = some k := by
  decide

theorem b64Char_ne_eq : ∀ k, k < 64 → b64Char k ≠ '=' := by
  decide

theorem b64_decode_encode (l : List Nat) (h : ∀ x ∈ l, x < 256) :
    b64DecodeList (b64EncodeList l) = some l := by
  induction l using b64EncodeList.induct with
  | case1 a b c rest ih =>
      have ha : a < 256 := h a (by simp)
      have hb : b < 256 := h b (by simp)
      have hc : c < 256 := h c (by simp)
      have h1 : a / 4 < 64 := by omega
      have h2 : (a % 4) * 16 + b / 16 < 64 := by omega
      have h3 : (b % 16) * 4 + c / 64 < 64 := by omega
      have h4 : c % 64 < 64 := by omega
      have hih := ih (fun x hx => h x (by simp [hx]))
      rw [b64EncodeList, b64DecodeList]
      rw [if_neg (by intro hco; exact b64Char_ne_eq _ h3 hco.1)]
      rw [if_neg (by intro hco; exact b64Char_ne_eq _ h4 hco.1)]
      rw [b64Index_b64Char _ h1, b64Index_b64Char _ h2,
          b64Index_b64Char _ h3, b64Index_b64Char _ h4, hih]
      have e1 : a / 4 * 4 + ((a % 4) * 16 + b / 16) / 16 = a := by omega
      have e2 : ((a % 4) * 16 + b / 16) % 16 * 16 + ((b % 16) * 4 + c / 64) / 4 = b := by
        omega
      have e3 : ((b % 16) * 4 + c / 64) % 4 * 64 + c % 64 = c := by omega
      simp [e1, e2, e3]
  | case2 a b =>
      have ha : a < 256 := h a (by simp)
      have hb : b < 256 := h b (by simp)
      have h1 : a / 4 < 64 := by omega
      have h2 : (a % 4) * 16 + b / 16 < 64 := by omega
      have h3 : (b % 16) * 4 < 64 := by omega
      rw [b64EncodeList, b64DecodeList]
      rw [if_neg (by intro hco; exact b64Char_ne_eq _ h3 hco.1)]
      rw [if_pos ⟨rfl, rfl⟩]
      rw [b64Index_b64Char _ h1, b64Index_b64Char _ h2, b64Index_b64Char _ h3]
      have e1 : a / 4 * 4 + ((a % 4) * 16 + b / 16) / 16 = a := by omega
      have e2 : ((a % 4) * 16 + b / 16) % 16 * 16 + (b % 16) * 4 / 4 = b := by omega
      simp [e1, e2]
      omega
  | case3 a =>
      have ha : a < 256 := h a (by simp)
      have h1 : a / 4 < 64 := by omega
      have h2 : (a % 4) * 16 < 64 := by omega
      rw [b64EncodeList, b64DecodeList]
      rw [if_pos ⟨rfl, rfl, rfl⟩]
      rw [b64Index_b64Char _ h1, b64Index_b64Char _ h2]
      have e1 : a / 4 * 4 + (a % 4) * 16 / 16 = a := by omega
      simp [e1]
      omega
  | case4 => rfl

theorem mapIdx_numbered_slice :
    ∀ (cnt : Nat) (xs : List String) (s : Nat), cnt ≤ xs.length →
      (xs.take cnt).mapIdx (fun idx line => toString (s + idx) ++ ": " ++ line) =
        (List.range' s cnt).map (fun k => toString k ++ ": " ++ xs.getD (k - s) "") := by
  intro cnt
  induction cnt with
  | zero => intro xs s _; simp
  | succ m ih =>
      intro xs s hlen
      match xs with
      | [] => simp at hlen
      | x :: rest =>
          rw [List.take_succ_cons, List.mapIdx_cons, List.range'_succ, List.map_cons]
          have hhead : toString (s + 0) ++ ": " ++ x =
              toString s ++ ": " ++ (x :: rest).getD (s - s) "" := by simp
          rw [hhead]
          congr 1
          have hfun : (fun i line =>
              (fun idx line => toString (s + idx) ++ ": " ++ line) (i + 1) line) =
              (fun idx line => toString ((s + 1) + idx) ++ ": " ++ line) := by
            funext i line
            show toString (s + (i + 1)) ++ ": " ++ line =
              toString (s + 1 + i) ++ ": " ++ line
            have : s + (i + 1) = s + 1 + i := by omega
            rw [this]
          rw [hfun, ih rest (s + 1) (by simpa using hlen)]
          apply List.map_congr_left
          intro k hk
          have hks : s + 1 ≤ k := (List.mem_range'_1.mp hk).1
          have hksub : k - s = (k - (s + 1)) + 1 := by omega
          rw [hksub, List.getD_cons_succ]

theorem contextBlock_eq_specContextLines (code : String) (n : Nat) :
    contextBlock code n = String.intercalate "\n" (specContextLines code n) := by
  simp only [contextBlock, specContextLines]
  congr 1
  have h1 : (1 : Nat) ≤ max 1 (n - 4) := le_max_left _ _
  have h2 : min (code.splitOn "\n").length (n + 4) ≤ (code.splitOn "\n").length :=
    min_le_left _ _
  have hcnt : min (code.splitOn "\n").length (n + 4) - (max 1 (n - 4) - 1) =
      min (code.splitOn "\n").length (n + 4) + 1 - max 1 (n - 4) := by omega
  rw [hcnt]
  rw [mapIdx_numbered_slice
    (min (code.splitOn "\n").length (n + 4) + 1 - max 1 (n - 4))
    ((code.splitOn "\n").drop (max 1 (n - 4) - 1))
    (max 1 (n - 4)) (by rw [List.length_drop]; omega)]
  apply List.map_congr_left
  intro k hk
  have hks : max 1 (n - 4) ≤ k := (List.mem_range'_1.mp hk).1
  rw [List.getD_eq_getElem?_getD, List.getD_eq_getElem?_getD, List.getElem?_drop]
  have : max 1 (n - 4) - 1 + (k - max 1 (n - 4)) = k - 1 := by omega
  rw [this]

theorem listFilesRecursive_cons (default_file_names : List String) (name : String)
    (child : Node) (rest : List (String × Node)) :
    listFilesRecursive default_file_names (Node.dir ((name, child) :: rest)) =
      (if name ∈ default_file_names then []
       else
         match child with
         | Node.file _ => [[name]]
         | Node.dir _ =>
             (listFilesRecursive default_file_names child).map (fun p => name :: p))
      ++ listFilesRecursive default_file_names (Node.dir rest) := by
  cases child <;> rfl

mutual

theorem listFilesRecursive_segments (default_file_names : List String) (n : Node) :
    ∀ p ∈ listFilesRecursive default_file_names n,
      p ≠ [] ∧ ∀ s ∈ p, s ∉ default_file_names := by
  cases n with
  | file content => intro p hp; simp [listFilesRecursive] at hp
  | dir entries =>
      intro p hp
      rw [listFilesRecursive] at hp
      exact listDirEntries_segments default_file_names entries p hp

theorem listDirEntries_segments (default_file_names : List String)
    (es : List (String × Node)) :
    ∀ p ∈ listDirEntries default_file_names es,
      p ≠ [] ∧ ∀ s ∈ p, s ∉ default_file_names := by
  match es with
  | [] => intro p hp; simp [listDirEntries] at hp
  | (name, child) :: rest =>
      intro p hp
      rw [listDirEntries.eq_def] at hp
      dsimp only at hp
      rcases List.mem_append.mp hp with hleft | hright
      · by_cases hname : name ∈ default_file_names
        · rw [if_pos hname] at hleft; simp at hleft
        · rw [if_neg hname] at hleft
          match child with
          | Node.file c =>
              have hpn : p = [name] := by simpa using hleft
              subst hpn
              refine ⟨by simp, ?_⟩
              intro s hs
              rw [List.mem_singleton.mp hs]
              exact hname
          | Node.dir es2 =>
              rcases List.mem_map.mp hleft with ⟨q, hq, hpq⟩
              subst hpq
              refine ⟨by simp, ?_⟩
              intro s hs
              rcases List.mem_cons.mp hs with hsn | hsq
              · rw [hsn]; exact hname
              · exact (listFilesRecursive_segments default_file_names
                  (Node.dir es2) q hq).2 s hsq
      · exact listDirEntries_segments default_file_names rest p hright

end

theorem getLast?_range' (f n : Nat) :
    (List.range' f (n + 1)).getLast? = some (f + n) := by
  rw [List.range'_concat, List.getLast?_concat]
  congr 1
  omega

theorem lockInv_init : LockInv initLockState := by
  refine ⟨0, by simp, by simp [initLockState], ?_, ?_, ?_, ?_, ?_⟩ <;>
    intro k <;> simp [initLockState]

theorem lockInv_step (s s' : LockState) (hs : LockInv s) (hstep : LockStep s s') :
    LockInv s' := by
  obtain ⟨f, hfe, hlocks, hdone, hndone, hrun, hbeyond, hpred⟩ := hs
  cases hstep with
  | enqueue =>
      dsimp only [LockInv]
      refine ⟨f, by omega, ?_, hdone, hndone, hrun, ?_, ?_⟩
      · have h1 : s.enqueued + 1 - f = (s.enqueued - f) + 1 := by omega
        have h2 : f + 1 * (s.enqueued - f) = s.enqueued := by omega
        rw [h1, List.range'_concat, h2, ← hlocks]
      · intro k hk
        have hk' : s.enqueued ≤ k := by omega
        refine ⟨(hbeyond k hk').1, ?_⟩
        rw [if_neg (by omega)]
        exact (hbeyond k hk').2
      · intro k hk
        by_cases hke : k = s.enqueued
        · rw [if_pos hke]
          by_cases hfk : f = k
          · right
            constructor
            · rw [hlocks]
              have hz : s.enqueued - f = 0 := by omega
              rw [hz]
              simp
            · intro j hj
              exact hdone j (by omega)
          · left
            have hflt : f < k := by omega
            have hn : s.enqueued - f = (s.enqueued - f - 1) + 1 := by omega
            rw [hlocks, hn, getLast?_range']
            refine ⟨by rw [hke]; congr 1; omega, by omega⟩
        · rw [if_neg hke]
          exact hpred k (by omega)
  | start i h =>
      obtain ⟨hie, hwait, hstart⟩ := h
      have hfi : f ≤ i := by
        by_contra hcon
        push_neg at hcon
        have hc := hdone i hcon
        rw [hwait] at hc
        cases hc
      have hif : i = f := by
        rcases hpred i hie with ⟨hpi, hi1⟩ | ⟨hpi, hall⟩
        · rcases hstart with hnone | ⟨j, hj, hjd⟩
          · rw [hpi] at hnone
            cases hnone
          · rw [hpi] at hj
            have hji : j = i - 1 := by
              cases hj
              rfl
            subst hji
            have hnf : ¬ f ≤ i - 1 := by
              intro hle
              exact hndone (i - 1) hle hjd
            omega
        · by_contra hne
          have hflt : f < i := by omega
          exact hndone f le_rfl (hall f hflt)
      subst hif
      dsimp only [LockInv]
      refine ⟨i, hfe, hlocks, ?_, ?_, ?_, ?_, ?_⟩
      · intro k hk
        rw [if_neg (by omega)]
        exact hdone k hk
      · intro k hk
        by_cases hki : k = i
        · rw [if_pos hki]
          decide
        · rw [if_neg hki]
          exact hndone k hk
      · intro k hk
        by_cases hki : k = i
        · exact hki
        · rw [if_neg hki] at hk
          exact hrun k hk
      · intro k hk
        have hb := hbeyond k hk
        refine ⟨?_, hb.2⟩
        rw [if_neg (by omega)]
        exact hb.1
      · intro k hk
        rcases hpred k hk with hleft | ⟨hpn, hall⟩
        · exact Or.inl hleft
        · right
          refine ⟨hpn, ?_⟩
          intro j hj
          by_cases hji : j = i
          · subst hji
            have hcc := hall j hj
            rw [hwait] at hcc
            cases hcc
          · rw [if_neg hji]
            exact hall j hj
  | finish i outcome h =>
      have hif : i = f := hrun i h
      subst hif
      have hilt : i < s.enqueued := by
        by_contra hcon
        push_neg at hcon
        have hw := (hbeyond i hcon).1
        rw [h] at hw
        cases hw
      dsimp only [LockInv]
      refine ⟨i + 1, by omega, ?_, ?_, ?_, ?_, ?_, ?_⟩
      · have hn : s.enqueued - i = (s.enqueued - (i + 1)) + 1 := by omega
        rw [hlocks, hn, List.range'_succ]
        simp
      · intro k hk
        by_cases hki : k = i
        · rw [if_pos hki]
        · rw [if_neg hki]
          exact hdone k (by omega)
      · intro k hk
        rw [if_neg (by omega)]
        exact hndone k (by omega)
      · intro k hk
        by_cases hki : k = i
        · rw [if_pos hki] at hk
          cases hk
        · rw [if_neg hki] at hk
          have := hrun k hk
          omega
      · intro k hk
        have hb := hbeyond k hk
        refine ⟨?_, hb.2⟩
        rw [if_neg (by omega)]
        exact hb.1
      · intro k hk
        rcases hpred k hk with hleft | ⟨hpn, hall⟩
        · exact Or.inl hleft
        · right
          refine ⟨hpn, ?_⟩
          intro j hj
          by_cases hji : j = i
          · rw [if_pos hji]
          · rw [if_neg hji]
            exact hall j hj

theorem lockInv_reachable (s : LockState) (hs : LockReachable s) : LockInv s := by
  induction hs with
  | init => exact lockInv_init
  | step s s' hr hstep ih => exact lockInv_step s s' ih hstep

/-! ## Supporting lemmas about runCode's output collection -/

theorem readOutputs_mem (home : Node) :
    ∀ (ps : List (List String)) (outs : List (String × String))
      (fn b64 : String), readOutputs home ps = some outs →
      (fn, b64) ∈ outs → ∃ p, p ∈ ps ∧ fn = relPath p := by
  intro ps
  induction ps with
  | nil =>
      intro outs fn b64 hro hm
      rw [readOutputs] at hro
      cases hro
      simp at hm
  | cons p rest ih =>
      intro outs fn b64 hro hm
      rw [readOutputs] at hro
      match hg : getNode p home with
      | none => rw [hg] at hro; cases hro
      | some (Node.dir es) => rw [hg] at hro; cases hro
      | some (Node.file content) =>
          rw [hg] at hro
          match hr : readOutputs home rest with
          | none => rw [hr] at hro; cases hro
          | some tail =>
              rw [hr] at hro
              cases hro
              rcases List.mem_cons.mp hm with hhead | htail
              · refine ⟨p, by simp, ?_⟩
                cases hhead
                rfl
              · obtain ⟨q, hq, hfq⟩ := ih tail fn b64 hr htail
                exact ⟨q, by simp [hq], hfq⟩

theorem slash_mem_relPath (a b : String) (r : List String) :
    '/' ∈ (relPath (a :: b :: r)).data := by
  rw [relPath, String.data_append, String.data_append]
  refine List.mem_append.mpr (Or.inl (List.mem_append.mpr (Or.inr ?_)))
  decide

theorem relPath_not_default (default_file_names : List String)
    (hsl : ∀ d ∈ default_file_names, '/' ∉ d.data) (p : List String)
    (hne : p ≠ []) (hseg : ∀ s ∈ p, s ∉ default_file_names) :
    relPath p ∉ default_file_names := by
  match p with
  | [] => exact absurd rfl hne
  | [s] => rw [relPath]; exact hseg s (by simp)
  | a :: b :: r =>
      intro hmem
      exact hsl (relPath (a :: b :: r)) hmem (slash_mem_relPath a b r)

theorem collectOutputs_mem (default_file_names : List String) (fs : Node)
    (files : List FileEntry) (outs : List (String × String)) (fn b64 : String)
    (hsl : ∀ d ∈ default_file_names, '/' ∉ d.data)
    (hc : collectOutputs default_file_names fs files = some outs)
    (hm : (fn, b64) ∈ outs) :
    fn ∉ default_file_names ∧
      some fn ∉ files.map (fun f => f.filename) := by
  rw [collectOutputs] at hc
  match hg : getNode pyHomeSegs fs with
  | none => rw [hg] at hc; cases hc
  | some home =>
      rw [hg] at hc
      dsimp only at hc
      obtain ⟨p, hp, hfn⟩ := readOutputs_mem home _ outs fn b64 hc hm
      have hp' := List.mem_filter.mp hp
      have hall := listFilesRecursive_segments default_file_names home p hp'.1
      subst hfn
      constructor
      · exact relPath_not_default default_file_names hsl p hall.1 hall.2
      · have hcontains := hp'.2
        simp at hcontains
        intro hmem
        obtain ⟨f, hf, hff⟩ := List.mem_map.mp hmem
        exact hcontains f hf hff

theorem runCodeAttempt_ok_shape (default_file_names : List String)
    (eng : EngineRun) (files : List FileEntry) (fs fs2 : Node)
    (r : CodeExecutionResponse)
    (hA : runCodeAttempt default_file_names eng files fs = Except.ok (fs2, r)) :
    ∃ outs, collectOutputs default_file_names fs2 files = some outs ∧
      r.output_files = some outs := by
  rw [runCodeAttempt] at hA
  match hl : eng.loadPkgs with
  | some e => rw [hl] at hA; cases hA
  | none =>
      rw [hl] at hA
      dsimp only at hA
      match hp : processFiles fs { success := true } files with
      | Except.error fe =>
          rw [hp] at hA
          dsimp only at hA
          cases hA
      | Except.ok (fs1, r1) =>
          rw [hp] at hA
          dsimp only at hA
          match he : eng.exec fs1 with
          | (fsx, Except.error e) =>
              rw [he] at hA
              dsimp only at hA
              cases hA
          | (fsx, Except.ok interpreterResult) =>
              rw [he] at hA
              dsimp only at hA
              match hc : collectOutputs default_file_names fsx files with
              | none =>
                  rw [hc] at hA
                  dsimp only at hA
                  cases hA
              | some new_files =>
                  rw [hc] at hA
                  dsimp only at hA
                  cases hA
                  exact ⟨new_files, hc, rfl⟩

theorem runCode_output_files_some (default_file_names : List String)
    (eng : EngineRun) (code : String) (files : List FileEntry) (fs : Node)
    (outs : List (String × String))
    (h : (runCode default_file_names eng code files fs).2.output_files =
      some outs) :
    ∃ fs2, collectOutputs default_file_names fs2 files = some outs := by
  rw [runCode] at h
  match hA : runCodeAttempt default_file_names eng files fs with
  | Except.error (fsx, e) =>
      rw [hA] at h
      dsimp only at h
      cases h
  | Except.ok (fsx, rx) =>
      rw [hA] at h
      dsimp only at h
      obtain ⟨outs2, hc2, hof⟩ :=
        runCodeAttempt_ok_shape default_file_names eng files fs fsx rx hA
      rw [hof] at h
      cases h
      exact ⟨fsx, hc2⟩

/-! ## Claim theorems -/

/-- C1: the claim states that every execute result has exactly one of
(`error` present) or (`success == true`).  The code violates it: for a
request whose file list contains a malformed entry, the `return` inside the
`forEach` callback (service.ts line 224) only ends the callback, so
execution proceeds and line 263 sets `success = true` while `result.error`
still holds the parsing error — the returned result has BOTH `success =
true` AND `error` present.  This theorem evaluates the embedded `runCode`
at that failing input. -/
theorem runCode_success_and_error_both_present :
    (runCode []
      { loadPkgs := none, exec := fun n => (n, Except.ok (some 2)),
        out_string := "", err_string := "", runtimeMs := 5 }
      "1+1" [⟨none, none⟩]
      (Node.dir [("home", Node.dir [("earth", Node.dir [])])])).2.success
      = true ∧
    (runCode []
      { loadPkgs := none, exec := fun n => (n, Except.ok (some 2)),
        out_string := "", err_string := "", runtimeMs := 5 }
      "1+1" [⟨none, none⟩]
      (Node.dir [("home", Node.dir [("earth", Node.dir [])])])).2.error
      = some (parsingError ⟨none, none⟩) := by
  exact ⟨rfl, rfl⟩

set_option maxRecDepth 10000 in
unseal String.splitOnAux in
/-- C2: the claim states that a request with a malformed input file entry
aborts before writing any files, never runs the submitted code, and
reports the ParsingError.  The code records the parsing error but — due to
the ineffective `return` inside the `forEach` callback — keeps writing the
remaining files and still runs the code in the engine.  At the failing
input below (malformed first entry, well-formed second entry "a.txt"),
the embedded `runCode` writes "a.txt" into the sandbox home directory,
runs the engine (the final expression is produced), and returns the
parsing error inside an (inconsistent) `success = true` response. -/
theorem runCode_runs_despite_malformed_entry :
    (runCode []
      { loadPkgs := none, exec := fun n => (n, Except.ok (some 2)),
        out_string := "", err_string := "", runtimeMs := 5 }
      "1+1" [⟨none, none⟩, ⟨some "a.txt", some "aA=="⟩]
      (Node.dir [("home", Node.dir [("earth", Node.dir [])])])).2.final_expression
      = some 2 ∧
    getNode ["home", "earth", "a.txt"]
      (runCode []
        { loadPkgs := none, exec := fun n => (n, Except.ok (some 2)),
          out_string := "", err_string := "", runtimeMs := 5 }
        "1+1" [⟨none, none⟩, ⟨some "a.txt", some "aA=="⟩]
        (Node.dir [("home", Node.dir [("earth", Node.dir [])])])).1
      = some (Node.file [104]) ∧
    (runCode []
      { loadPkgs := none, exec := fun n => (n, Except.ok (some 2)),
        out_string := "", err_string := "", runtimeMs := 5 }
      "1+1" [⟨none, none⟩, ⟨some "a.txt", some "aA=="⟩]
      (Node.dir [("home", Node.dir [("earth", Node.dir [])])])).2.error
      = some (parsingError ⟨none, none⟩) ∧
    (runCode []
      { loadPkgs := none, exec := fun n => (n, Except.ok (some 2)),
        out_string := "", err_string := "", runtimeMs := 5 }
      "1+1" [⟨none, none⟩, ⟨some "a.txt", some "aA=="⟩]
      (Node.dir [("home", Node.dir [("earth", Node.dir [])])])).2.success
      = true := by
  exact ⟨rfl, rfl, rfl, rfl⟩

set_option maxRecDepth 10000 in
unseal String.splitOnAux in
/-- C3 counterexample: the claim states that a filename with path-escaping
segments is rejected with a ParsingError and that no input file is written
outside the home directory.  The code has no such check: for the entry
`{filename: "../evil.txt", b64_data: "aA=="}`, `PATH.join2` resolves the
path to /home/evil.txt — outside /home/earth — the file is written there,
and the response carries no error at all. -/
theorem runCode_writes_escaping_filename_without_error :
    joinPath pyHomeSegs "../evil.txt" = ["home", "evil.txt"] ∧
    pyHomeSegs.isPrefixOf ["home", "evil.txt"] = false ∧
    (runCode []
      { loadPkgs := none, exec := fun n => (n, Except.ok (some 2)),
        out_string := "", err_string := "", runtimeMs := 5 }
      "x" [⟨some "../evil.txt", some "aA=="⟩]
      (Node.dir [("home", Node.dir [("earth", Node.dir [])])])).2.error
      = none ∧
    (runCode []
      { loadPkgs := none, exec := fun n => (n, Except.ok (some 2)),
        out_string := "", err_string := "", runtimeMs := 5 }
      "x" [⟨some "../evil.txt", some "aA=="⟩]
      (Node.dir [("home", Node.dir [("earth", Node.dir [])])])).2.success
      = true ∧
    getNode ["home", "evil.txt"]
      (runCode []
        { loadPkgs := none, exec := fun n => (n, Except.ok (some 2)),
          out_string := "", err_string := "", runtimeMs := 5 }
        "x" [⟨some "../evil.txt", some "aA=="⟩]
        (Node.dir [("home", Node.dir [("earth", Node.dir [])])])).1
      = some (Node.file [104]) := by
  exact ⟨rfl, rfl, rfl, rfl, rfl⟩

/-- C3 amended: input file entries are never checked for path-escaping
segments.  Every entry carrying both a filename and a payload is accepted
without any parsing error — the response object is passed through
unchanged — and its decoded bytes are written at `PATH.join2(home,
filename)`, wherever the normalization of that joined path lands
(inside or outside the home directory). -/
theorem processFiles_no_filename_validation :
    (∀ (files : List FileEntry) (fs : Node) (r : CodeExecutionResponse)
      (fs' : Node) (r' : CodeExecutionResponse),
      (∀ f ∈ files, f.filename ≠ none ∧ f.b64_data ≠ none) →
      processFiles fs r files = Except.ok (fs', r') → r' = r) ∧
    (∀ (fn b64 : String) (bytes : List Nat) (fs fs2 : Node)
      (r : CodeExecutionResponse),
      base64ToBytes b64 = some bytes →
      writeAt (joinPath pyHomeSegs fn) bytes fs = some fs2 →
      processFiles fs r [⟨some fn, some b64⟩] = Except.ok (fs2, r)) := by
  constructor
  · intro files
    induction files with
    | nil =>
        intro fs r fs' r' hwf hp
        rw [processFiles] at hp
        cases hp
        rfl
    | cons f rest ih =>
        intro fs r fs' r' hwf hp
        obtain ⟨hfn, hb64⟩ := hwf f (by simp)
        match f, hfn, hb64 with
        | ⟨some fn, some b64⟩, _, _ =>
            rw [processFiles] at hp
            dsimp only at hp
            match hdec : base64ToBytes b64 with
            | none => rw [hdec] at hp; cases hp
            | some bytes =>
                rw [hdec] at hp
                dsimp only at hp
                match hw : writeAt (joinPath pyHomeSegs fn) bytes fs with
                | none => rw [hw] at hp; cases hp
                | some fs2 =>
                    rw [hw] at hp
                    dsimp only at hp
                    exact ih fs2 r fs' r' (fun g hg => hwf g (by simp [hg])) hp
  · intro fn b64 bytes fs fs2 r hdec hw
    rw [processFiles]
    dsimp only
    rw [hdec]
    dsimp only
    rw [hw]
    exact rfl

/-- C4 counterexample: the claim states that when running the code fails,
the returned result still contains the output files collected from the
sandbox, so partial artifacts are not lost.  In the code, output collection
(lines 238-249) lives inside the try block AFTER `runPythonAsync`, so when
the engine throws, the catch block is entered before `result.output_files`
is ever assigned: the response has `output_files` absent even though a
partial artifact (b.txt below) exists in the sandbox filesystem. -/
theorem runCode_failure_drops_partial_artifacts :
    (runCode []
      { loadPkgs := none,
        exec := fun n => ((writeAt ["home", "earth", "b.txt"] [104] n).getD n,
          Except.error ⟨some "PythonError", "boom"⟩),
        out_string := "", err_string := "", runtimeMs := 7 }
      "x = 1/0" []
      (Node.dir [("home", Node.dir [("earth", Node.dir [])])])).2.success
      = false ∧
    (runCode []
      { loadPkgs := none,
        exec := fun n => ((writeAt ["home", "earth", "b.txt"] [104] n).getD n,
          Except.error ⟨some "PythonError", "boom"⟩),
        out_string := "", err_string := "", runtimeMs := 7 }
      "x = 1/0" []
      (Node.dir [("home", Node.dir [("earth", Node.dir [])])])).2.error
      = some ⟨some "PythonError", "boom"⟩ ∧
    (runCode []
      { loadPkgs := none,
        exec := fun n => ((writeAt ["home", "earth", "b.txt"] [104] n).getD n,
          Except.error ⟨some "PythonError", "boom"⟩),
        out_string := "", err_string := "", runtimeMs := 7 }
      "x = 1/0" []
      (Node.dir [("home", Node.dir [("earth", Node.dir [])])])).2.output_files
      = none ∧
    getNode ["home", "earth", "b.txt"]
      (runCode []
        { loadPkgs := none,
          exec := fun n => ((writeAt ["home", "earth", "b.txt"] [104] n).getD n,
            Except.error ⟨some "PythonError", "boom"⟩),
          out_string := "", err_string := "", runtimeMs := 7 }
        "x = 1/0" []
        (Node.dir [("home", Node.dir [("earth", Node.dir [])])])).1
      = some (Node.file [104]) := by
  exact ⟨rfl, rfl, rfl, rfl⟩

/-- C4 amended: on any failure raised while running the code, the result
has `success = false` and `error = {type, message-with-context}`, but the
output files are NOT collected: `output_files` is absent from the failed
response (and `final_expression` too), regardless of what artifacts exist
in the sandbox filesystem. -/
theorem runCode_exec_error_response (default_file_names : List String)
    (eng : EngineRun) (code : String) (files : List FileEntry)
    (fs fs1 fs2 : Node) (r1 : CodeExecutionResponse) (e : JsError)
    (hl : eng.loadPkgs = none)
    (hp : processFiles fs { success := true } files = Except.ok (fs1, r1))
    (he : eng.exec fs1 = (fs2, Except.error e)) :
    (runCode default_file_names eng code files fs).2 =
      { success := false,
        final_expression := none,
        output_files := none,
        error := some ⟨e.type, enrichErrorMsg code e.message⟩,
        std_out := some eng.out_string,
        std_err := some eng.err_string,
        code_runtime := some eng.runtimeMs } := by
  rw [runCode, runCodeAttempt, hl]
  dsimp only
  rw [hp]
  dsimp only
  rw [he]

/-- C4 amended, witness: the amended statement instantiated at a concrete
engine that creates b.txt and then throws. -/
theorem runCode_exec_error_response_witness :
    (runCode []
      { loadPkgs := none,
        exec := fun n => ((writeAt ["home", "earth", "b.txt"] [104] n).getD n,
          Except.error ⟨some "PythonError", "boom"⟩),
        out_string := "o", err_string := "e", runtimeMs := 7 }
      "x = 1/0" []
      (Node.dir [("home", Node.dir [("earth", Node.dir [])])])).2 =
      { success := false,
        final_expression := none,
        output_files := none,
        error := some ⟨some "PythonError", enrichErrorMsg "x = 1/0" "boom"⟩,
        std_out := some "o",
        std_err := some "e",
        code_runtime := some 7 } := by
  exact runCode_exec_error_response []
    { loadPkgs := none,
      exec := fun n => ((writeAt ["home", "earth", "b.txt"] [104] n).getD n,
        Except.error ⟨some "PythonError", "boom"⟩),
      out_string := "o", err_string := "e", runtimeMs := 7 }
    "x = 1/0" []
    (Node.dir [("home", Node.dir [("earth", Node.dir [])])])
    (Node.dir [("home", Node.dir [("earth", Node.dir [])])])
    (Node.dir [("home", Node.dir [("earth", Node.dir [("b.txt", Node.file [104])])])])
    { success := true } ⟨some "PythonError", "boom"⟩ rfl rfl rfl

/-- C5 counterexample: the claim states that every per-request failure —
including the readiness timeout — is captured and returned inside the
structured response with `success = false`.  But `runRequest` awaits
`waitForReady()` with no try/catch (index.ts line 23), and the express
handler does not catch either, so the timeout rejection escapes uncaught:
no structured response is produced at all. -/
theorem runRequest_timeout_escapes :
    runRequest false []
      { loadPkgs := none, exec := fun n => (n, Except.ok none),
        out_string := "", err_string := "", runtimeMs := 0 }
      (Node.dir []) ⟨some "1 + 1", none⟩ =
      Except.error "pyodide is still not loaded after waiting" := by
  exact rfl

/-- C5 amended: a request with missing or whitespace-only code is answered
with the structured parsing reply (`success = false`), and `runCode`
always returns a structured result instead of throwing, so a ready
`runRequest` replies whenever every supplied file entry carries a
`b64_data` payload; but two per-request error paths escape `runRequest` as
uncaught rejections, producing no structured response: the `waitForReady`
timeout, and the TypeError thrown by the file-logging line (index.ts line
37) when a supplied entry has no `b64_data`. -/
theorem runRequest_error_propagation :
    (∀ (default_file_names : List String) (eng : EngineRun) (fs : Node)
      (body : RequestBody),
      (∀ f ∈ body.files.getD [], f.b64_data.isSome = true) →
      ∃ v, runRequest true default_file_names eng fs body = Except.ok v) ∧
    (∀ (default_file_names : List String) (eng : EngineRun) (fs : Node)
      (files : Option (List FileEntry)),
      runRequest true default_file_names eng fs ⟨none, files⟩ =
        Except.ok (SentResponse.parseErrorNoCode, fs) ∧
      sentSuccess SentResponse.parseErrorNoCode = false) ∧
    (∀ (default_file_names : List String) (eng : EngineRun) (fs : Node)
      (body : RequestBody),
      runRequest false default_file_names eng fs body =
        Except.error "pyodide is still not loaded after waiting") ∧
    (∀ (default_file_names : List String) (eng : EngineRun) (fs : Node)
      (code : String) (files : List FileEntry),
      ¬ code.trim = "" →
      ¬ (∀ f ∈ files, f.b64_data.isSome = true) →
      runRequest true default_file_names eng fs ⟨some code, some files⟩ =
        Except.error filesLogTypeError) := by
  refine ⟨?_, ?_, ?_, ?_⟩
  · intro d eng fs body hfiles
    obtain ⟨bc, bf⟩ := body
    cases bc with
    | none => exact ⟨_, rfl⟩
    | some c =>
        rw [runRequest]
        dsimp only [waitForReady]
        by_cases ht : c.trim = ""
        · rw [if_pos ht]
          exact ⟨_, rfl⟩
        · rw [if_neg ht]
          cases bf with
          | none => exact ⟨_, rfl⟩
          | some files =>
              have hall : files.all (fun f => f.b64_data.isSome) = true := by
                rw [List.all_eq_true]
                intro f hf
                exact hfiles f hf
              dsimp only
              rw [if_pos hall]
              exact ⟨_, rfl⟩
  · intro d eng fs files
    exact ⟨rfl, rfl⟩
  · intro d eng fs body
    exact rfl
  · intro d eng fs code files ht hnall
    rw [runRequest]
    dsimp only [waitForReady]
    rw [if_neg ht]
    have hnotall : ¬ (files.all (fun f => f.b64_data.isSome) = true) := by
      rw [List.all_eq_true]
      intro hall
      exact hnall (fun f hf => hall f hf)
    rw [if_neg hnotall]
    rfl

unseal Substring.takeWhileAux Substring.takeRightWhileAux in
/-- C5 amended, witness: the propagation theorem applied to two concrete
ready requests — one whose single file entry carries its payload (a
structured reply is produced) and one whose single file entry has no
`b64_data` (the logging TypeError escapes with no structured reply). -/
theorem runRequest_error_propagation_witness :
    (∃ v, runRequest true []
      { loadPkgs := none, exec := fun n => (n, Except.ok (some 2)),
        out_string := "", err_string := "", runtimeMs := 0 }
      (Node.dir [("home", Node.dir [("earth", Node.dir [])])])
      ⟨some "1 + 1", some [⟨some "a.txt", some "aA=="⟩]⟩ = Except.ok v) ∧
    runRequest true []
      { loadPkgs := none, exec := fun n => (n, Except.ok (some 2)),
        out_string := "", err_string := "", runtimeMs := 0 }
      (Node.dir [("home", Node.dir [("earth", Node.dir [])])])
      ⟨some "1 + 1", some [⟨some "a.txt", none⟩]⟩ =
      Except.error filesLogTypeError := by
  constructor
  · exact runRequest_error_propagation.1 []
      { loadPkgs := none, exec := fun n => (n, Except.ok (some 2)),
        out_string := "", err_string := "", runtimeMs := 0 }
      (Node.dir [("home", Node.dir [("earth", Node.dir [])])])
      ⟨some "1 + 1", some [⟨some "a.txt", some "aA=="⟩]⟩ (by decide)
  · exact runRequest_error_propagation.2.2.2 []
      { loadPkgs := none, exec := fun n => (n, Except.ok (some 2)),
        out_string := "", err_string := "", runtimeMs := 0 }
      (Node.dir [("home", Node.dir [("earth", Node.dir [])])])
      "1 + 1" [⟨some "a.txt", none⟩] (by decide) (by decide)

/-- C6: tasks submitted to `doWithLock` under one lock name are mutually
exclusive (at most one running in every reachable state), run in FIFO
acquire order (everything before the running task is done), the `finally`
block's `splice(0, 1)` removes exactly the finishing task's own token
(the running task's token is always at the queue head), and after a finish
— which behaves identically whether the task returned or threw, since the
`LockStep.finish` transition ignores the outcome — the next waiter's start
guard holds, so a failure neither blocks nor corrupts the queue. -/
theorem doWithLock_serialization :
    ∀ s : LockState, LockReachable s →
      (∀ i j, s.phase i = Phase.running → s.phase j = Phase.running → i = j) ∧
      (∀ i j, s.phase i = Phase.running → j < i → s.phase j = Phase.done) ∧
      (∀ i, s.phase i = Phase.running → s.locks.head? = some i) ∧
      (∀ i, s.phase i = Phase.running → i + 1 < s.enqueued →
        canStart
          { s with
            phase := fun k => if k = i then Phase.done else s.phase k,
            locks := s.locks.drop 1 } (i + 1)) := by
  intro s hs
  obtain ⟨f, hfe, hlocks, hdone, hndone, hrun, hbeyond, hpred⟩ :=
    lockInv_reachable s hs
  refine ⟨?_, ?_, ?_, ?_⟩
  · intro i j hi hj
    rw [hrun i hi, hrun j hj]
  · intro i j hi hj
    have hif := hrun i hi
    exact hdone j (by omega)
  · intro i hi
    have hif := hrun i hi
    have hilt : i < s.enqueued := by
      by_contra hcon
      push_neg at hcon
      have hw := (hbeyond i hcon).1
      rw [hi] at hw
      cases hw
    rw [hlocks, ← hif]
    have hn : s.enqueued - i = (s.enqueued - i - 1) + 1 := by omega
    rw [hn, List.range'_succ]
    rfl
  · intro i hi hlt
    have hif := hrun i hi
    refine ⟨by dsimp only; omega, ?_, ?_⟩
    · show (if i + 1 = i then Phase.done else s.phase (i + 1)) = Phase.waiting
      rw [if_neg (by omega)]
      match hph : s.phase (i + 1) with
      | Phase.waiting => rfl
      | Phase.running =>
          have := hrun (i + 1) hph
          omega
      | Phase.done =>
          have := hndone (i + 1) (by omega) hph
          cases this
    · show (({ s with
          phase := fun k => if k = i then Phase.done else s.phase k,
          locks := s.locks.drop 1 } : LockState).pred (i + 1) = none) ∨ _
      dsimp only
      rcases hpred (i + 1) hlt with ⟨hp, _⟩ | ⟨hpn, _⟩
      · right
        refine ⟨i, hp, ?_⟩
        rw [if_pos rfl]
      · exact Or.inl hpn

/-- C6 witness: the serialization theorem applied to the concrete reachable
state in which two tasks have acquired the lock and the first is running:
its token 0 sits at the head of the queue, and it is the only running
task. -/
theorem doWithLock_serialization_witness :
    (LockState.mk 2
      (fun k => if k = 0 then Phase.running else Phase.waiting)
      (fun k => if k = 1 then some 0 else if k = 0 then none else none)
      [0, 1]).locks.head? = some 0 ∧
    (∀ j, (LockState.mk 2
      (fun k => if k = 0 then Phase.running else Phase.waiting)
      (fun k => if k = 1 then some 0 else if k = 0 then none else none)
      [0, 1]).phase j = Phase.running → j = 0) := by
  have h1 : LockReachable (LockState.mk 1
      (fun _ => Phase.waiting)
      (fun k => if k = 0 then none else none)
      [0]) :=
    LockReachable.step _ _ LockReachable.init (LockStep.enqueue initLockState)
  have h2 : LockReachable (LockState.mk 2
      (fun _ => Phase.waiting)
      (fun k => if k = 1 then some 0 else if k = 0 then none else none)
      [0, 1]) :=
    LockReachable.step _ _ h1 (LockStep.enqueue _)
  have h3 : LockReachable (LockState.mk 2
      (fun k => if k = 0 then Phase.running else Phase.waiting)
      (fun k => if k = 1 then some 0 else if k = 0 then none else none)
      [0, 1]) :=
    LockReachable.step _ _ h2 (LockStep.start _ 0 ⟨by decide, rfl, Or.inl rfl⟩)
  have hthm := doWithLock_serialization _ h3
  exact ⟨hthm.2.2.1 0 rfl, fun j hj => hthm.1 j 0 hj rfl⟩

set_option maxRecDepth 10000 in
unseal String.splitOnAux in
/-- C7: an execute result's `output_files` never contains a filename that
is in the DefaultFileSnapshot lookup set (whose names, coming from
`readdir` of the seed directory, contain no slash) nor among the request's
input filenames; and concretely, with input files `a.txt`, default
snapshot `seed.txt`, and an execution creating `b.txt`, the returned
`output_files` is exactly `b.txt`. -/
theorem runCode_output_exclusion :
    (∀ (default_file_names : List String) (eng : EngineRun) (code : String)
      (files : List FileEntry) (fs : Node) (outs : List (String × String))
      (fn b64 : String),
      (∀ d ∈ default_file_names, '/' ∉ d.data) →
      (runCode default_file_names eng code files fs).2.output_files =
        some outs →
      (fn, b64) ∈ outs →
      fn ∉ default_file_names ∧
        some fn ∉ files.map (fun f => f.filename)) ∧
    ((runCode ["seed.txt"]
      { loadPkgs := none,
        exec := fun n => ((writeAt ["home", "earth", "b.txt"] [104] n).getD n,
          Except.ok none),
        out_string := "", err_string := "", runtimeMs := 3 }
      "c" [⟨some "a.txt", some "aA=="⟩]
      (Node.dir [("home", Node.dir [("earth",
        Node.dir [("seed.txt", Node.file [1])])])])).2.output_files
      = some [("b.txt", "aA==")]) := by
  constructor
  · intro d eng code files fs outs fn b64 hsl hof hm
    obtain ⟨fs2, hc⟩ := runCode_output_files_some d eng code files fs outs hof
    exact collectOutputs_mem d fs2 files outs fn b64 hsl hc hm
  · rfl

set_option maxRecDepth 10000 in
unseal String.splitOnAux in
/-- C7 witness: the exclusion theorem applied to the concrete execution of
its second part: the produced output file `b.txt` is neither a default
filename nor an input filename. -/
theorem runCode_output_exclusion_witness :
    "b.txt" ∉ ["seed.txt"] ∧
    some "b.txt" ∉
      ([⟨some "a.txt", some "aA=="⟩] : List FileEntry).map
        (fun f => f.filename) := by
  exact runCode_output_exclusion.1 ["seed.txt"]
    { loadPkgs := none,
      exec := fun n => ((writeAt ["home", "earth", "b.txt"] [104] n).getD n,
        Except.ok none),
      out_string := "", err_string := "", runtimeMs := 3 }
    "c" [⟨some "a.txt", some "aA=="⟩]
    (Node.dir [("home", Node.dir [("earth",
      Node.dir [("seed.txt", Node.file [1])])])])
    [("b.txt", "aA==")] "b.txt" "aA==" (by decide) rfl (by simp)

/-- C8: if the raised message contains the `File "<exec>", line N` marker,
the enriched message is exactly the original message with an appended
"Code context:" block holding the inclusive window
`[max(1, N-4), min(lastLine, N+4)]` of source lines, each prefixed with
its 1-based line number and joined with newlines (the spec-worded window
is `specContextLines`); with no marker, the message is returned unchanged.
Being a total Lean function, the enrichment never throws. -/
theorem enrichErrorMsg_spec :
    ∀ (code msg : String),
      (∀ n, findExecLine msg.data = some n →
        enrichErrorMsg code msg =
          msg ++ "\n\nCode context:\n" ++
            String.intercalate "\n" (specContextLines code n)) ∧
      (findExecLine msg.data = none → enrichErrorMsg code msg = msg) := by
  intro code msg
  constructor
  · intro n hn
    rw [enrichErrorMsg, hn]
    dsimp only
    rw [contextBlock_eq_specContextLines]
  · intro hn
    rw [enrichErrorMsg, hn]

set_option maxRecDepth 10000 in
unseal String.splitOnAux in
/-- C8 witness: the enrichment theorem applied to the spec's concrete
example — source `"x\ny = 1/0\nz"` and an engine error citing line 2 —
yields a context block listing lines 1-3 with their line numbers. -/
theorem enrichErrorMsg_spec_witness :
    findExecLine ("Traceback:\n  File \"<exec>\", line 2, in <module>").data =
      some 2 ∧
    enrichErrorMsg "x\ny = 1/0\nz"
        "Traceback:\n  File \"<exec>\", line 2, in <module>" =
      "Traceback:\n  File \"<exec>\", line 2, in <module>" ++
        "\n\nCode context:\n" ++
        String.intercalate "\n" (specContextLines "x\ny = 1/0\nz" 2) ∧
    specContextLines "x\ny = 1/0\nz" 2 = ["1: x", "2: y = 1/0", "3: z"] := by
  refine ⟨rfl, ?_, rfl⟩
  exact (enrichErrorMsg_spec "x\ny = 1/0\nz"
    "Traceback:\n  File \"<exec>\", line 2, in <module>").1 2 rfl

/-- C9: decoding the base64 encoding of any byte sequence returns the
original bytes exactly: `base64ToBytes (bytesToBase64 b) = b` for every
list of bytes (values below 256, as produced by a `Uint8Array`). -/
theorem base64_roundtrip (b : List Nat) (h : ∀ x ∈ b, x < 256) :
    base64ToBytes (bytesToBase64 b) = some b := by
  show b64DecodeList (b64EncodeList b) = some b
  exact b64_decode_encode b h

/-- C9 witness: the round-trip theorem at a concrete byte sequence
covering both padding shapes and extremal byte values. -/
theorem base64_roundtrip_witness :
    base64ToBytes (bytesToBase64 [0, 104, 255, 7]) = some [0, 104, 255, 7] := by
  exact base64_roundtrip [0, 104, 255, 7] (by decide)

/-- C10: the DefaultFileSnapshot exclusion is applied to the basename of
every entry at every depth of the recursive listing: no segment of any
returned path is a default filename (so a caller file in a subdirectory
sharing a basename with a default file never appears), and an entry whose
name is a default filename — directory or file — is pruned together with
its entire subtree. -/
theorem listFilesRecursive_prunes_defaults :
    (∀ (default_file_names : List String) (n : Node) (p : List String),
      p ∈ listFilesRecursive default_file_names n →
      p ≠ [] ∧ ∀ s ∈ p, s ∉ default_file_names) ∧
    (∀ (default_file_names : List String) (name : String) (child : Node)
      (rest : List (String × Node)),
      name ∈ default_file_names →
      listFilesRecursive default_file_names (Node.dir ((name, child) :: rest)) =
        listFilesRecursive default_file_names (Node.dir rest)) := by
  constructor
  · intro d n p hp
    exact listFilesRecursive_segments d n p hp
  · intro d name child rest hmem
    rw [listFilesRecursive_cons, if_pos hmem]
    rw [List.nil_append]

/-- C10 witness: the pruning theorem applied to a concrete tree whose
subdirectory `sub` holds both a file named like the default `seed.txt`
and a file `ok.txt`: the only listed path is `sub/ok.txt`, and none of
its segments is a default name. -/
theorem listFilesRecursive_prunes_defaults_witness :
    ["sub", "ok.txt"] ≠ [] ∧
    ∀ s ∈ ["sub", "ok.txt"], s ∉ ["seed.txt"] := by
  refine listFilesRecursive_prunes_defaults.1 ["seed.txt"]
    (Node.dir [("sub", Node.dir [("seed.txt", Node.file [1]),
      ("ok.txt", Node.file [2])])])
    ["sub", "ok.txt"] ?_
  rw [show listFilesRecursive ["seed.txt"]
    (Node.dir [("sub", Node.dir [("seed.txt", Node.file [1]),
      ("ok.txt", Node.file [2])])]) = [["sub", "ok.txt"]] from rfl]
  exact List.mem_singleton.mpr rfl

set_option maxRecDepth 10000 in
unseal String.splitOnAux in
/-- C3 amended, witness: the no-validation theorem applied to the concrete
path-escaping entry `{filename: "../evil.txt", b64_data: "aA=="}`: the
file is written at /home/evil.txt and the response is returned unchanged
(no error of any kind). -/
theorem processFiles_no_filename_validation_witness :
    processFiles (Node.dir [("home", Node.dir [("earth", Node.dir [])])])
      { success := true } [⟨some "../evil.txt", some "aA=="⟩] =
      Except.ok (Node.dir [("home", Node.dir [("earth", Node.dir []),
        ("evil.txt", Node.file [104])])],
        { success := true }) := by
  exact processFiles_no_filename_validation.2 "../evil.txt" "aA==" [104]
    (Node.dir [("home", Node.dir [("earth", Node.dir [])])])
    (Node.dir [("home", Node.dir [("earth", Node.dir []),
      ("evil.txt", Node.file [104])])])
    { success := true } rfl rfl

end Terrarium
